import Mathlib

/-!
# Verification of the card-matching vocabulary game (`src/streamlit_app.py`)

Shallow embedding of the game/session state machine of the Streamlit app:
deck building (`init_game`), the flip/judge loop of `main`'s PLAYING branch,
the timer check, and the persistent mistake store (`save_mistake`,
`increment_correct_count`, `delete_mistake`).  Streamlit session state is
modelled as an explicit `GameState` record; the Supabase table
`mistaken_words` is modelled as a list of rows threaded through the
operations; wall-clock timestamps are rationals.
-/

namespace PokeGame

/-- A row of the Supabase table `mistaken_words` (columns `word_en`,
`word_jp`, `correct_count`). -/
structure MistakenWord where
  word_en : String
  word_jp : String
  correct_count : Nat
  deriving Repr, DecidableEq

/-- The persisted mistake store: the rows of the `mistaken_words` table. -/
abbrev Store := List MistakenWord

/-- `select ... .eq("word_en", en)` returning the first matching row, as used
by `save_mistake` and `increment_correct_count`. -/
def findRow (store : Store) (en : String) : Option MistakenWord :=
  store.find? (fun r => r.word_en = en)

/-- `save_mistake(en, jp)`: insert a row `{word_en := en, word_jp := jp}` only
when no row with this `word_en` exists.  The inserted row's `correct_count`
is the table's column default; `Modelled from the spec:` the schema is not in
the repository, and the spec fixes the initial `successCount` to 0. -/
def save_mistake (store : Store) (en jp : String) : Store :=
  match findRow store en with
  | some _ => store
  | none => store ++ [⟨en, jp, 0⟩]

/-- `increment_correct_count(en)`: read the first row with `word_en = en`;
if present, write `correct_count + 1` back to every row with that `word_en`
and return the new value; if absent (or on error) return 0 and leave the
table unchanged. -/
def increment_correct_count (store : Store) (en : String) : Store × Nat :=
  match findRow store en with
  | some r =>
      (store.map (fun q =>
        if q.word_en = en then { q with correct_count := r.correct_count + 1 } else q),
       r.correct_count + 1)
  | none => (store, 0)

/-- `delete_mistake(en)`: delete every row with `word_en = en`. -/
def delete_mistake (store : Store) (en : String) : Store :=
  store.filter (fun r => ¬ r.word_en = en)

/-- One item of a word list handed to `init_game`: the dicts
`{"en": ..., "jp": ..., "count": ...}` produced by `generate_quiz_words` /
`fetch_revenge_words` (`count` defaults to 0 via `item.get("count", 0)`). -/
structure WordItem where
  en : String
  jp : String
  count : Nat := 0
  deriving Repr, DecidableEq

/-- A card dict built by `init_game`: `{"id", "text", "pair", "is_jp", "count"}`. -/
structure Card where
  id : String
  text : String
  pair : String
  is_jp : Bool
  count : Nat
  deriving Repr, DecidableEq

/-- The two cards `init_game` emits for one word-list item: the English face
and the Japanese face, both carrying `id = item.en`. -/
def cardsOf (item : WordItem) : List Card :=
  [⟨item.en, item.en, item.jp, false, item.count⟩,
   ⟨item.en, item.jp, item.en, true, item.count⟩]

/-- The card list `init_game` builds before `random.shuffle`. -/
def buildCards (word_list : List WordItem) : List Card :=
  word_list.flatMap cardsOf

/-- `st.session_state.current_mode`. -/
inductive Mode where
  | NORMAL
  | REVENGE
  deriving Repr, DecidableEq

/-- `st.session_state.game_state`. -/
inductive Phase where
  | IDLE
  | PLAYING
  | FINISHED
  deriving Repr, DecidableEq

/-- The Streamlit session state of a round together with the persisted
mistake store it reads and writes. -/
structure GameState where
  cards : List Card
  flipped : List Nat
  matched : Finset String
  collected_now : List String
  mistakes_now : List (String × String)
  mastered_pending : List String
  current_mode : Mode
  start_time : ℚ
  time_limit : ℚ
  game_state : Phase
  is_cleared : Bool
  store : Store
  deriving DecidableEq

/-- `init_game(word_list, time_limit, mode)` run at time `now` against the
store `store`, where `deck` is the card list after `random.shuffle` (the
shuffle itself is external randomness; theorems quantify over any
permutation of `buildCards word_list`). -/
def init_game (deck : List Card) (time_limit : ℚ) (mode : Mode) (now : ℚ)
    (store : Store) : GameState :=
  { cards := deck
    flipped := []
    matched := ∅
    collected_now := []
    mistakes_now := []
    mastered_pending := []
    current_mode := mode
    start_time := now
    time_limit := time_limit
    game_state := Phase.PLAYING
    is_cleared := false
    store := store }

/-- The Japanese side recorded for a mismatched first card:
`c1["pair"] if not c1["is_jp"] else c1["text"]`. -/
def mistakeJp (c : Card) : String := if c.is_jp then c.text else c.pair

/-- The match branch of the judging block (`c1.id == c2.id`): add the id to
`matched`, collect it once (in REVENGE mode incrementing its persisted
counter and proposing graduation at 10), clear `flipped`, and finish the
round as cleared when every pair is matched. -/
def judgeMatch (s : GameState) (c1 : Card) : GameState :=
  let s1 :=
    if c1.id ∈ s.collected_now then s
    else if s.current_mode = Mode.REVENGE then
      { s with collected_now := s.collected_now ++ [c1.id]
               store := (increment_correct_count s.store c1.id).1
               mastered_pending :=
                 if 10 ≤ (increment_correct_count s.store c1.id).2 then
                   s.mastered_pending ++ [c1.id]
                 else s.mastered_pending }
    else { s with collected_now := s.collected_now ++ [c1.id] }
  if (insert c1.id s.matched).card * 2 = s.cards.length then
    { s1 with matched := insert c1.id s.matched
              flipped := []
              is_cleared := true
              game_state := Phase.FINISHED }
  else
    { s1 with matched := insert c1.id s.matched
              flipped := [] }

/-- The mismatch branch of the judging block: in NORMAL mode persist the
first card's id via `save_mistake` and append it to `mistakes_now` when not
already listed; in either mode clear `flipped`. -/
def judgeMismatch (s : GameState) (c1 : Card) : GameState :=
  if s.current_mode = Mode.NORMAL then
    { s with store := save_mistake s.store c1.id (mistakeJp c1)
             mistakes_now :=
               if s.mistakes_now.any (fun m => m.1 = c1.id) then s.mistakes_now
               else s.mistakes_now ++ [(c1.id, mistakeJp c1)]
             flipped := [] }
  else { s with flipped := [] }

/-- The judging block (`if len(st.session_state.flipped) == 2:`). -/
def judge (s : GameState) : GameState :=
  match s.flipped with
  | [idx1, idx2] =>
    match s.cards[idx1]?, s.cards[idx2]? with
    | some c1, some c2 =>
        if c1.id = c2.id then judgeMatch s c1 else judgeMismatch s c1
    | _, _ => s
  | _ => s

/-- A card button click: the button only exists in the PLAYING branch and is
rendered `disabled` when the card's id is matched; the click handler itself
appends the position only when it is not already flipped and fewer than two
cards are face-up. -/
def flip (s : GameState) (i : Nat) : GameState :=
  if s.game_state = Phase.PLAYING then
    match s.cards[i]? with
    | some card =>
        if card.id ∈ s.matched then s
        else if i ∈ s.flipped ∨ 2 ≤ s.flipped.length then s
        else { s with flipped := s.flipped ++ [i] }
    | none => s
  else s

/-- A full click interaction: the flip, followed by the judging block that a
rerun executes as soon as two cards are face-up in the PLAYING branch. -/
def press (s : GameState) (i : Nat) : GameState :=
  let s' := flip s i
  if s'.game_state = Phase.PLAYING ∧ s'.flipped.length = 2 then judge s' else s'

/-- The timer check of the PLAYING branch at wall-clock time `now`:
`remaining = time_limit - (now - start_time)`; when `remaining <= 0` the
round finishes uncleared. -/
def tick (s : GameState) (now : ℚ) : GameState :=
  if s.game_state = Phase.PLAYING then
    if s.time_limit - (now - s.start_time) ≤ 0 then
      { s with game_state := Phase.FINISHED, is_cleared := false }
    else s
  else s

/-- An interaction with a running round: a card click or a timer check. -/
inductive Action where
  | press (i : Nat)
  | tick (now : ℚ)

/-- Execute one interaction. -/
def step (s : GameState) (a : Action) : GameState :=
  match a with
  | Action.press i => press s i
  | Action.tick now => tick s now

/-- Execute a sequence of interactions. -/
def run (s : GameState) (acts : List Action) : GameState :=
  acts.foldl step s

/-- The graduation test applied to the value returned by
`increment_correct_count`: `if increment_correct_count(...) >= 10`. -/
def graduationCandidate (newCount : Nat) : Bool := 10 ≤ newCount

/-- The confirm-graduation button: `delete_mistake` on every pending word,
then clear the pending list. -/
def confirm_graduation (s : GameState) : GameState :=
  { s with store := s.mastered_pending.foldl delete_mistake s.store
           mastered_pending := [] }

/-- The deny-graduation button (`残しておく`): clear the pending list only. -/
def deny_graduation (s : GameState) : GameState :=
  { s with mastered_pending := [] }

/-- One quiz-word entry `{"en": ..., "jp": ...}` returned by
`generate_quiz_words`. -/
structure QuizItem where
  en : String
  jp : String
  deriving Repr, DecidableEq

/-- The static 8-pair table `generate_quiz_words` returns without an API key. -/
def STATIC_TABLE : List QuizItem :=
  [⟨"Strategy", "戦略"⟩,
   ⟨"Efficiency", "効率"⟩,
   ⟨"Deadline", "締め切り"⟩,
   ⟨"Negotiate", "交渉する"⟩,
   ⟨"Inquiry", "問い合わせ"⟩,
   ⟨"Expand", "拡大する"⟩,
   ⟨"Launch", "立ち上げる/発売"⟩,
   ⟨"Budget", "予算"⟩]

/-- `generate_quiz_words(api_key, rank_prompt)`: without a key return the
static table; with a key the external call either yields a parsed list
(returned as-is) or raises, in which case the handler returns the single
placeholder pair. The external call's outcome is the explicit argument
`api_result`. -/
def generate_quiz_words (api_key : Option String)
    (api_result : Except Unit (List QuizItem)) : List QuizItem :=
  match api_key with
  | none => STATIC_TABLE
  | some _ =>
    match api_result with
    | Except.ok l => l
    | Except.error _ => [⟨"Error", "エラー"⟩]

/-! ## Store lemmas -/

theorem findRow_nil (en : String) : findRow [] en = none := rfl

theorem findRow_cons (r : MistakenWord) (t : Store) (en : String) :
    findRow (r :: t) en = if r.word_en = en then some r else findRow t en := by
  by_cases h : r.word_en = en <;> simp [findRow, List.find?_cons, h]

theorem findRow_append_of_none (store l2 : Store) (en : String)
    (h : findRow store en = none) : findRow (store ++ l2) en = findRow l2 en := by
  induction store with
  | nil => simp
  | cons a t ih =>
      rw [findRow_cons] at h
      by_cases ha : a.word_en = en
      · simp [ha] at h
      · rw [List.cons_append, findRow_cons, if_neg ha]
        exact ih (by simpa [ha] using h)

theorem findRow_map_update_self (store : Store) (en : String) (v : Nat)
    (r : MistakenWord) (h : findRow store en = some r) :
    findRow (store.map (fun q =>
        if q.word_en = en then { q with correct_count := v } else q)) en
      = some { r with correct_count := v } := by
  induction store with
  | nil => simp [findRow] at h
  | cons a t ih =>
      rw [findRow_cons] at h
      by_cases ha : a.word_en = en
      · rw [if_pos ha] at h
        cases h
        simp [findRow_cons, ha]
      · rw [if_neg ha] at h
        rw [List.map_cons, if_neg ha, findRow_cons, if_neg ha]
        exact ih h

theorem findRow_map_update_ne (store : Store) (en en' : String) (v : Nat)
    (hne : en' ≠ en) :
    findRow (store.map (fun q =>
        if q.word_en = en then { q with correct_count := v } else q)) en'
      = findRow store en' := by
  induction store with
  | nil => simp
  | cons a t ih =>
      by_cases ha : a.word_en = en
      · have hne' : ¬ a.word_en = en' := by
          rw [ha]; intro hc; exact hne hc.symm
        rw [List.map_cons, if_pos ha]
        simp [findRow_cons, hne', ih]
      · rw [List.map_cons, if_neg ha, findRow_cons, findRow_cons, ih]

theorem findRow_delete_self (store : Store) (en : String) :
    findRow (delete_mistake store en) en = none := by
  rw [findRow, List.find?_eq_none]
  intro r hr
  have := (List.mem_filter.mp hr).2
  simpa using this

theorem increment_of_none (store : Store) (en : String)
    (h : findRow store en = none) : increment_correct_count store en = (store, 0) := by
  simp [increment_correct_count, h]

theorem increment_of_some (store : Store) (en : String) (r : MistakenWord)
    (h : findRow store en = some r) :
    increment_correct_count store en =
      (store.map (fun q =>
        if q.word_en = en then { q with correct_count := r.correct_count + 1 } else q),
       r.correct_count + 1) := by
  simp [increment_correct_count, h]

theorem increment_fst (store : Store) (en : String) (r : MistakenWord)
    (h : findRow store en = some r) :
    (increment_correct_count store en).1 = store.map (fun q =>
      if q.word_en = en then { q with correct_count := r.correct_count + 1 }
      else q) := by
  rw [increment_of_some store en r h]

theorem save_mistake_of_some (store : Store) (en jp : String) (r : MistakenWord)
    (h : findRow store en = some r) : save_mistake store en jp = store := by
  simp [save_mistake, h]

theorem save_mistake_of_none (store : Store) (en jp : String)
    (h : findRow store en = none) :
    save_mistake store en jp = store ++ [⟨en, jp, 0⟩] := by
  simp [save_mistake, h]

theorem findRow_save_mistake (store : Store) (en jp : String) :
    findRow (save_mistake store en jp) en =
      match findRow store en with
      | some r => some r
      | none => some ⟨en, jp, 0⟩ := by
  cases h : findRow store en with
  | some r => rw [save_mistake_of_some store en jp r h, h]
  | none =>
      rw [save_mistake_of_none store en jp h, findRow_append_of_none store _ en h]
      simp [findRow_cons]

/-! ## Judging-block lemmas -/

theorem judge_eq (s : GameState) (i j : Nat) (c1 c2 : Card)
    (hf : s.flipped = [i, j]) (h1 : s.cards[i]? = some c1)
    (h2 : s.cards[j]? = some c2) :
    judge s = if c1.id = c2.id then judgeMatch s c1 else judgeMismatch s c1 := by
  unfold judge
  rw [hf]
  simp only [h1, h2]

theorem judgeMatch_proj (s : GameState) (c1 : Card) :
    (judgeMatch s c1).matched = insert c1.id s.matched ∧
    (judgeMatch s c1).flipped = [] ∧
    (judgeMatch s c1).collected_now =
      (if c1.id ∈ s.collected_now then s.collected_now
       else s.collected_now ++ [c1.id]) ∧
    (judgeMatch s c1).game_state =
      (if (insert c1.id s.matched).card * 2 = s.cards.length then Phase.FINISHED
       else s.game_state) := by
  simp only [judgeMatch]
  split_ifs <;> simp_all

theorem judgeMatch_revenge (s : GameState) (c1 : Card)
    (hmode : s.current_mode = Mode.REVENGE) (hnew : c1.id ∉ s.collected_now) :
    (judgeMatch s c1).store = (increment_correct_count s.store c1.id).1 ∧
    (judgeMatch s c1).mastered_pending =
      (if 10 ≤ (increment_correct_count s.store c1.id).2 then
        s.mastered_pending ++ [c1.id]
       else s.mastered_pending) ∧
    (judgeMatch s c1).collected_now = s.collected_now ++ [c1.id] := by
  simp only [judgeMatch, if_neg hnew, if_pos hmode]
  split_ifs <;> simp_all

theorem judgeMatch_collected_before (s : GameState) (c1 : Card)
    (hold : c1.id ∈ s.collected_now) :
    (judgeMatch s c1).store = s.store ∧
    (judgeMatch s c1).collected_now = s.collected_now ∧
    (judgeMatch s c1).mastered_pending = s.mastered_pending := by
  simp only [judgeMatch, if_pos hold]
  split_ifs <;> simp_all

theorem judgeMismatch_proj (s : GameState) (c1 : Card) :
    (judgeMismatch s c1).flipped = [] ∧
    (judgeMismatch s c1).matched = s.matched ∧
    (judgeMismatch s c1).collected_now = s.collected_now ∧
    (s.current_mode = Mode.NORMAL →
      (judgeMismatch s c1).store = save_mistake s.store c1.id (mistakeJp c1) ∧
      (judgeMismatch s c1).mistakes_now =
        (if s.mistakes_now.any (fun m => m.1 = c1.id) then s.mistakes_now
         else s.mistakes_now ++ [(c1.id, mistakeJp c1)])) ∧
    (¬ s.current_mode = Mode.NORMAL →
      (judgeMismatch s c1).store = s.store ∧
      (judgeMismatch s c1).mistakes_now = s.mistakes_now) := by
  simp only [judgeMismatch]
  split <;> simp_all

/-! ## Concrete demonstration data -/

/-- The spec's two-pair word list `[("cat","猫"),("dog","犬")]`. -/
def demoPairs : List WordItem := [⟨"cat", "猫", 0⟩, ⟨"dog", "犬", 0⟩]

/-- A NORMAL round on the two-pair deck (identity shuffle), empty store. -/
def demoNormal : GameState := init_game (buildCards demoPairs) 30 Mode.NORMAL 0 []

/-- A REVENGE round on the two-pair deck, with the two words persisted. -/
def demoRevenge : GameState :=
  init_game (buildCards demoPairs) 40 Mode.REVENGE 0
    [⟨"cat", "猫", 9⟩, ⟨"dog", "犬", 3⟩]

/-! ## Claim theorems -/

/-- C5: while the round is in the PLAYING phase, a timer check at `now` ends
the round if and only if `now - startedAt >= timeLimit`, and then it finishes
uncleared; a check before the limit leaves the state unchanged, and any check
outside the PLAYING phase (in particular after expiry) is a no-op. -/
theorem tick_expires_iff_timeout (s : GameState) (now : ℚ) :
    (s.game_state = Phase.PLAYING →
      (((tick s now).game_state = Phase.FINISHED) ↔
        s.time_limit ≤ now - s.start_time) ∧
      (s.time_limit ≤ now - s.start_time →
        tick s now = { s with game_state := Phase.FINISHED, is_cleared := false }) ∧
      (¬ s.time_limit ≤ now - s.start_time → tick s now = s)) ∧
    (s.game_state ≠ Phase.PLAYING → tick s now = s) := by
  constructor
  · intro hp
    have hiff : s.time_limit - (now - s.start_time) ≤ 0 ↔
        s.time_limit ≤ now - s.start_time := by
      constructor <;> intro h <;> linarith
    by_cases hc : s.time_limit - (now - s.start_time) ≤ 0
    · have h2 := hiff.mp hc
      refine ⟨?_, fun _ => ?_, fun hn => absurd h2 hn⟩
      · simp [tick, hp, hc, h2]
      · simp [tick, hp, hc]
    · have h2 : ¬ s.time_limit ≤ now - s.start_time := fun h => hc (hiff.mpr h)
      refine ⟨?_, fun h => absurd h h2, fun _ => ?_⟩
      · simp [tick, hp, hc, h2, hp ▸ (by decide : Phase.PLAYING ≠ Phase.FINISHED)]
      · simp [tick, hp, hc]
  · intro hn
    simp [tick, hn]

theorem tick_expires_iff_timeout_witness :
    tick demoNormal 40 =
      { demoNormal with game_state := Phase.FINISHED, is_cleared := false } ∧
    tick (tick demoNormal 40) 50 = tick demoNormal 40 := by
  have h1 : tick demoNormal 40 =
      { demoNormal with game_state := Phase.FINISHED, is_cleared := false } :=
    ((tick_expires_iff_timeout demoNormal 40).1 rfl).2.1
      (by norm_num [demoNormal, init_game])
  refine ⟨h1, (tick_expires_iff_timeout (tick demoNormal 40) 50).2 ?_⟩
  rw [h1]
  decide

/-- C6: `save_mistake` is idempotent: with a row already present for the
word, the call leaves the store (and so the row's `correct_count`) unchanged;
with no row present it inserts `⟨en, jp, 0⟩`; and a repeated call never
changes the result of the first. -/
theorem save_mistake_idempotent (store : Store) (en jp jp' : String) :
    (∀ r, findRow store en = some r →
      save_mistake store en jp = store ∧
      findRow (save_mistake store en jp) en = some r) ∧
    (findRow store en = none →
      save_mistake store en jp = store ++ [⟨en, jp, 0⟩] ∧
      findRow (save_mistake store en jp) en = some ⟨en, jp, 0⟩) ∧
    save_mistake (save_mistake store en jp) en jp' = save_mistake store en jp := by
  refine ⟨fun r h => ⟨save_mistake_of_some store en jp r h, ?_⟩, fun h => ?_, ?_⟩
  · rw [save_mistake_of_some store en jp r h, h]
  · refine ⟨save_mistake_of_none store en jp h, ?_⟩
    rw [save_mistake_of_none store en jp h, findRow_append_of_none store _ en h]
    simp [findRow_cons]
  · cases h : findRow store en with
    | some r =>
        rw [save_mistake_of_some store en jp r h,
          save_mistake_of_some store en jp' r h]
    | none =>
        rw [save_mistake_of_none store en jp h]
        refine save_mistake_of_some _ en jp' ⟨en, jp, 0⟩ ?_
        rw [findRow_append_of_none store _ en h]
        simp [findRow_cons]

theorem save_mistake_idempotent_witness :
    findRow (save_mistake [⟨"cat", "猫", 7⟩] "cat" "ネコ") "cat" =
      some ⟨"cat", "猫", 7⟩ ∧
    save_mistake (save_mistake [] "dog" "犬") "dog" "イヌ" =
      save_mistake [] "dog" "犬" :=
  ⟨((save_mistake_idempotent [⟨"cat", "猫", 7⟩] "cat" "ネコ" "X").1
      ⟨"cat", "猫", 7⟩ rfl).2,
   (save_mistake_idempotent [] "dog" "犬" "イヌ").2.2⟩

/-- C7 counterexample: `increment_correct_count` called for a word with no
persisted row does not fail — it silently returns the default value 0 and
leaves the table untouched, both on an empty store and on a store that holds
only other words. -/
theorem increment_missing_returns_default :
    increment_correct_count [] "cat" = ([], 0) ∧
    increment_correct_count [⟨"dog", "犬", 3⟩] "cat" = ([⟨"dog", "犬", 3⟩], 0) := by
  constructor <;> rfl

/-- C7 (amended): with no persisted row for the word,
`increment_correct_count` silently returns 0 and leaves the store unchanged
(no error is surfaced); with a row present it increments `correct_count` by
exactly 1 and returns the new value. -/
theorem increment_correct_count_spec (store : Store) (en : String) :
    (findRow store en = none → increment_correct_count store en = (store, 0)) ∧
    (∀ r, findRow store en = some r →
      (increment_correct_count store en).2 = r.correct_count + 1 ∧
      findRow (increment_correct_count store en).1 en =
        some { r with correct_count := r.correct_count + 1 }) := by
  refine ⟨increment_of_none store en, fun r h => ?_⟩
  rw [increment_of_some store en r h]
  exact ⟨rfl, findRow_map_update_self store en _ r h⟩

theorem increment_correct_count_spec_witness :
    increment_correct_count [] "cat" = ([], 0) ∧
    (increment_correct_count [⟨"cat", "猫", 4⟩] "cat").2 = 5 :=
  ⟨(increment_correct_count_spec [] "cat").1 rfl,
   ((increment_correct_count_spec [⟨"cat", "猫", 4⟩] "cat").2
      ⟨"cat", "猫", 4⟩ rfl).1⟩

/-- C9 counterexample: with an API key present and the external generator
failing, `generate_quiz_words` returns the single placeholder pair
`("Error","エラー")` — not the 8-pair static table — so the round is
under-populated (1 pair instead of 8). -/
theorem quiz_words_failure_not_padded :
    generate_quiz_words (some "key") (Except.error ()) = [⟨"Error", "エラー"⟩] ∧
    (generate_quiz_words (some "key") (Except.error ())).length = 1 ∧
    generate_quiz_words (some "key") (Except.error ()) ≠ STATIC_TABLE := by
  refine ⟨rfl, rfl, ?_⟩
  decide

/-- C9 (amended): with no API key `generate_quiz_words` returns the full
static table of 8 pairs; with a key, a failing external call yields only the
single placeholder pair `("Error","エラー")` (no exception propagates, but
there is no padding from the static table), and a successful call's list is
returned as-is, without deduplication by term. -/
theorem generate_quiz_words_spec (k : String) (l : List QuizItem)
    (r : Except Unit (List QuizItem)) :
    generate_quiz_words none r = STATIC_TABLE ∧
    STATIC_TABLE.length = 8 ∧
    generate_quiz_words (some k) (Except.error ()) = [⟨"Error", "エラー"⟩] ∧
    generate_quiz_words (some k) (Except.ok l) = l :=
  ⟨rfl, rfl, rfl, rfl⟩

/-- C2: on a match while PLAYING, exactly the shared pairId is added to the
matched set, the face-up list is cleared, the pairId is appended to the
collected list only when not already present, and the round transitions to
the finished-cleared phase iff twice the number of matched pairIds equals the
deck length. -/
theorem match_updates (s : GameState) (i j : Nat) (c1 c2 : Card)
    (hf : s.flipped = [i, j]) (h1 : s.cards[i]? = some c1)
    (h2 : s.cards[j]? = some c2) (heq : c1.id = c2.id)
    (hph : s.game_state = Phase.PLAYING) :
    (judge s).matched = insert c1.id s.matched ∧
    (judge s).flipped = [] ∧
    (judge s).collected_now =
      (if c1.id ∈ s.collected_now then s.collected_now
       else s.collected_now ++ [c1.id]) ∧
    ((judge s).game_state = Phase.FINISHED ↔
      (insert c1.id s.matched).card * 2 = s.cards.length) := by
  rw [judge_eq s i j c1 c2 hf h1 h2, if_pos heq]
  obtain ⟨hm, hfl, hc, hg⟩ := judgeMatch_proj s c1
  refine ⟨hm, hfl, hc, ?_⟩
  rw [hg]
  by_cases hcl : (insert c1.id s.matched).card * 2 = s.cards.length
  · simp [hcl]
  · simp [hcl, hph]

theorem match_updates_witness :
    (judge { demoNormal with flipped := [2, 3] }).matched =
      insert "dog" (∅ : Finset String) ∧
    (judge { demoNormal with flipped := [2, 3] }).flipped = [] ∧
    (judge { demoNormal with flipped := [2, 3] }).collected_now = ["dog"] ∧
    ((judge { demoNormal with flipped := [2, 3] }).game_state = Phase.FINISHED ↔
      (insert "dog" (∅ : Finset String)).card * 2 = 4) :=
  match_updates { demoNormal with flipped := [2, 3] } 2 3
    ⟨"dog", "dog", "犬", false, 0⟩ ⟨"dog", "犬", "dog", true, 0⟩
    rfl rfl rfl rfl rfl

/-- C1 counterexample: in the spec's two-pair scenario — a NORMAL round on
the deck [cat-term, cat-translation, dog-term, dog-translation], flipping the
"cat"-term card (position 0) and then the "犬" dog-translation card
(position 3) — the mismatch records only the FIRST flipped card's pairId:
the missed list is [("cat","猫")], so the recorded key is "cat", not "dog",
and the second card's pairId "dog" is not recorded at all. -/
theorem mismatch_scenario_records_cat :
    (run demoNormal [Action.press 0, Action.press 3]).mistakes_now =
      [("cat", "猫")] ∧
    ¬ ((run demoNormal [Action.press 0, Action.press 3]).mistakes_now.map
        Prod.fst = ["dog"]) ∧
    "dog" ∉ (run demoNormal [Action.press 0, Action.press 3]).mistakes_now.map
        Prod.fst := by
  refine ⟨?_, ?_, ?_⟩ <;> decide

/-- C1 (amended): on a mismatch the face-up list is cleared and the matched
set is unchanged; in NORMAL mode only the FIRST flipped card's pairId is
recorded into the missed list (deduplicated by pairId) and persisted via
`save_mistake` — the second card's pairId is not recorded — so the spec's
two-pair scenario yields missed = {"cat"}; in REVENGE mode a mismatch writes
neither the missed list nor the persisted mistake store. -/
theorem mismatch_records_first_card (s : GameState) (i j : Nat) (c1 c2 : Card)
    (hf : s.flipped = [i, j]) (h1 : s.cards[i]? = some c1)
    (h2 : s.cards[j]? = some c2) (hne : c1.id ≠ c2.id) :
    (judge s).flipped = [] ∧
    (judge s).matched = s.matched ∧
    (s.current_mode = Mode.NORMAL →
      (judge s).mistakes_now =
        (if c1.id ∈ s.mistakes_now.map Prod.fst then s.mistakes_now
         else s.mistakes_now ++ [(c1.id, mistakeJp c1)]) ∧
      (judge s).store = save_mistake s.store c1.id (mistakeJp c1)) ∧
    (s.current_mode = Mode.REVENGE →
      (judge s).mistakes_now = s.mistakes_now ∧ (judge s).store = s.store) := by
  rw [judge_eq s i j c1 c2 hf h1 h2, if_neg hne]
  obtain ⟨hfl, hm, _, hn, hr⟩ := judgeMismatch_proj s c1
  have hequiv : (s.mistakes_now.any (fun m => m.1 = c1.id) = true) ↔
      c1.id ∈ s.mistakes_now.map Prod.fst := by
    simp [List.any_eq_true, List.mem_map]
  refine ⟨hfl, hm, fun hmode => ?_, fun hmode => ?_⟩
  · obtain ⟨hs, hmk⟩ := hn hmode
    refine ⟨?_, hs⟩
    rw [hmk]
    by_cases hmem : c1.id ∈ s.mistakes_now.map Prod.fst
    · rw [if_pos (hequiv.mpr hmem), if_pos hmem]
    · rw [if_neg (fun h => hmem (hequiv.mp h)), if_neg hmem]
  · exact ⟨(hr (by simp [hmode])).2, (hr (by simp [hmode])).1⟩

theorem mismatch_records_first_card_witness :
    (judge { demoNormal with flipped := [0, 3] }).flipped = [] ∧
    (judge { demoNormal with flipped := [0, 3] }).mistakes_now =
      [("cat", "猫")] ∧
    (judge { demoNormal with flipped := [0, 3] }).store =
      save_mistake [] "cat" "猫" := by
  have h := mismatch_records_first_card { demoNormal with flipped := [0, 3] }
    0 3 ⟨"cat", "cat", "猫", false, 0⟩ ⟨"dog", "犬", "dog", true, 0⟩
    rfl rfl rfl (by decide)
  exact ⟨h.1, (h.2.2.1 rfl).1, (h.2.2.1 rfl).2⟩

/-- C8: a REVENGE-mode success on a not-yet-collected word increments its
persisted counter to `correct_count + 1` and proposes the word for
graduation exactly when the post-increment count reaches the threshold 10
(counts below 10 never propose); confirming graduation deletes the persisted
row, while denying it leaves the store — and so the counter — untouched. -/
theorem graduation_two_phase (s : GameState) (i j : Nat) (c1 c2 : Card)
    (r : MistakenWord) (hf : s.flipped = [i, j]) (h1 : s.cards[i]? = some c1)
    (h2 : s.cards[j]? = some c2) (heq : c1.id = c2.id)
    (hmode : s.current_mode = Mode.REVENGE) (hnew : c1.id ∉ s.collected_now)
    (hr : findRow s.store c1.id = some r) :
    findRow (judge s).store c1.id =
      some { r with correct_count := r.correct_count + 1 } ∧
    (judge s).mastered_pending =
      (if graduationCandidate (r.correct_count + 1) then
        s.mastered_pending ++ [c1.id]
       else s.mastered_pending) ∧
    (∀ n, graduationCandidate n = true ↔ 10 ≤ n) ∧
    (∀ (st : Store) (en : String), findRow (delete_mistake st en) en = none) ∧
    (∀ s' : GameState, (deny_graduation s').store = s'.store) := by
  rw [judge_eq s i j c1 c2 hf h1 h2, if_pos heq]
  obtain ⟨hs, hp, _⟩ := judgeMatch_revenge s c1 hmode hnew
  refine ⟨?_, ?_, fun n => by simp [graduationCandidate],
    findRow_delete_self, fun s' => rfl⟩
  · rw [hs, increment_of_some s.store c1.id r hr]
    exact findRow_map_update_self s.store c1.id _ r hr
  · rw [hp, increment_of_some s.store c1.id r hr]
    simp [graduationCandidate]

theorem graduation_two_phase_witness :
    findRow (judge { demoRevenge with flipped := [0, 1] }).store "cat" =
      some ⟨"cat", "猫", 10⟩ ∧
    (judge { demoRevenge with flipped := [0, 1] }).mastered_pending = ["cat"] :=
  ⟨(graduation_two_phase { demoRevenge with flipped := [0, 1] } 0 1
      ⟨"cat", "cat", "猫", false, 0⟩ ⟨"cat", "猫", "cat", true, 0⟩
      ⟨"cat", "猫", 9⟩ rfl rfl rfl rfl rfl (by decide) rfl).1,
   (graduation_two_phase { demoRevenge with flipped := [0, 1] } 0 1
      ⟨"cat", "cat", "猫", false, 0⟩ ⟨"cat", "猫", "cat", true, 0⟩
      ⟨"cat", "猫", 9⟩ rfl rfl rfl rfl rfl (by decide) rfl).2.1⟩

/-! ## Deck-building lemmas -/

theorem buildCards_cons (w : WordItem) (ws : List WordItem) :
    buildCards (w :: ws) = cardsOf w ++ buildCards ws := by
  simp [buildCards]

theorem length_buildCards (wl : List WordItem) :
    (buildCards wl).length = 2 * wl.length := by
  induction wl with
  | nil => rfl
  | cons w ws ih =>
      rw [buildCards_cons, List.length_append, ih]
      simp [cardsOf]
      omega

theorem mem_buildCards_id (wl : List WordItem) (c : Card)
    (h : c ∈ buildCards wl) : c.id ∈ wl.map WordItem.en := by
  induction wl with
  | nil => simp [buildCards] at h
  | cons w ws ih =>
      rw [buildCards_cons, List.mem_append] at h
      rcases h with h | h
      · simp only [cardsOf, List.mem_cons, List.not_mem_nil, or_false] at h
        rcases h with rfl | rfl <;> simp
      · simp [ih h]

theorem countP_buildCards_zero_of (wl : List WordItem) (en : String)
    (p : Card → Bool) (hp : ∀ c, p c = true → c.id = en)
    (h : en ∉ wl.map WordItem.en) : (buildCards wl).countP p = 0 := by
  rw [List.countP_eq_zero]
  intro c hc hpc
  exact h (hp c hpc ▸ mem_buildCards_id wl c hc)

theorem countP_cardsOf (w : WordItem) (en : String) :
    (cardsOf w).countP (fun c => c.id = en) = if w.en = en then 2 else 0 := by
  by_cases h : w.en = en <;> simp [cardsOf, List.countP_cons, h]

theorem countP_cardsOf_role (w : WordItem) (en : String) (b : Bool) :
    (cardsOf w).countP (fun c => c.id = en ∧ c.is_jp = b) =
      if w.en = en then 1 else 0 := by
  by_cases h : w.en = en <;> cases b <;> simp [cardsOf, List.countP_cons, h]

theorem countP_buildCards (wl : List WordItem) (en : String)
    (hnd : (wl.map WordItem.en).Nodup) (hmem : en ∈ wl.map WordItem.en) :
    (buildCards wl).countP (fun c => c.id = en) = 2 := by
  induction wl with
  | nil => simp at hmem
  | cons w ws ih =>
      rw [buildCards_cons, List.countP_append, countP_cardsOf]
      rw [List.map_cons, List.nodup_cons] at hnd
      rw [List.map_cons, List.mem_cons] at hmem
      by_cases h : w.en = en
      · rw [if_pos h,
          countP_buildCards_zero_of ws en _ (fun c hc => by simpa using hc)
            (h ▸ hnd.1)]
      · rw [if_neg h]
        rcases hmem with rfl | hmem
        · exact absurd rfl h
        · simp [ih hnd.2 hmem]

theorem countP_buildCards_role (wl : List WordItem) (en : String) (b : Bool)
    (hnd : (wl.map WordItem.en).Nodup) (hmem : en ∈ wl.map WordItem.en) :
    (buildCards wl).countP (fun c => c.id = en ∧ c.is_jp = b) = 1 := by
  induction wl with
  | nil => simp at hmem
  | cons w ws ih =>
      rw [buildCards_cons, List.countP_append, countP_cardsOf_role]
      rw [List.map_cons, List.nodup_cons] at hnd
      rw [List.map_cons, List.mem_cons] at hmem
      by_cases h : w.en = en
      · rw [if_pos h,
          countP_buildCards_zero_of ws en _
            (fun c hc => by simpa using (of_decide_eq_true hc).1)
            (h ▸ hnd.1)]
      · rw [if_neg h]
        rcases hmem with rfl | hmem
        · exact absurd rfl h
        · simpa using ih hnd.2 hmem

/-- C3: for a word list whose terms are pairwise distinct, the deck built by
`init_game` has exactly `2 N` cards, and — for any permutation the shuffle
produces — every term appears as the pairId of exactly two cards, one
term-faced (`is_jp = false`) and one translation-faced (`is_jp = true`). -/
theorem deck_build_invariant (word_list : List WordItem) (deck : List Card)
    (hperm : deck.Perm (buildCards word_list))
    (hnd : (word_list.map WordItem.en).Nodup) :
    deck.length = 2 * word_list.length ∧
    ∀ en ∈ word_list.map WordItem.en,
      deck.countP (fun c => c.id = en) = 2 ∧
      deck.countP (fun c => c.id = en ∧ c.is_jp = false) = 1 ∧
      deck.countP (fun c => c.id = en ∧ c.is_jp = true) = 1 := by
  refine ⟨by rw [hperm.length_eq, length_buildCards], fun en hmem => ?_⟩
  rw [hperm.countP_eq, hperm.countP_eq, hperm.countP_eq]
  exact ⟨countP_buildCards word_list en hnd hmem,
    countP_buildCards_role word_list en false hnd hmem,
    countP_buildCards_role word_list en true hnd hmem⟩

theorem deck_build_invariant_witness :
    (buildCards demoPairs).length = 2 * demoPairs.length ∧
    (buildCards demoPairs).countP (fun c => c.id = "cat") = 2 ∧
    (buildCards demoPairs).countP
      (fun c => c.id = "cat" ∧ c.is_jp = false) = 1 := by
  have h := deck_build_invariant demoPairs (buildCards demoPairs)
    (List.Perm.refl _) (by decide)
  exact ⟨h.1, (h.2 "cat" (by decide)).1, (h.2 "cat" (by decide)).2.1⟩

/-! ## Flip and run lemmas -/

theorem flip_of_two (s : GameState) (i : Nat) (h : 2 ≤ s.flipped.length) :
    flip s i = s := by
  unfold flip
  by_cases hp : s.game_state = Phase.PLAYING
  · simp only [if_pos hp]
    cases hc : s.cards[i]? with
    | none => rfl
    | some card =>
        dsimp only
        by_cases hm : card.id ∈ s.matched
        · rw [if_pos hm]
        · rw [if_neg hm, if_pos (Or.inr h)]
  · rw [if_neg hp]

theorem flip_of_mem (s : GameState) (i : Nat) (h : i ∈ s.flipped) :
    flip s i = s := by
  unfold flip
  by_cases hp : s.game_state = Phase.PLAYING
  · simp only [if_pos hp]
    cases hc : s.cards[i]? with
    | none => rfl
    | some card =>
        dsimp only
        by_cases hm : card.id ∈ s.matched
        · rw [if_pos hm]
        · rw [if_neg hm, if_pos (Or.inl h)]
  · rw [if_neg hp]

theorem flip_len_le (s : GameState) (i : Nat) (h : s.flipped.length ≤ 2) :
    (flip s i).flipped.length ≤ 2 := by
  unfold flip
  by_cases hp : s.game_state = Phase.PLAYING
  · simp only [if_pos hp]
    cases hc : s.cards[i]? with
    | none => simpa
    | some card =>
        by_cases hm : card.id ∈ s.matched
        · simpa [hm]
        · by_cases h2 : i ∈ s.flipped ∨ 2 ≤ s.flipped.length
          · simpa [hm, h2]
          · simp only [if_neg hm, if_neg h2, List.length_append,
              List.length_singleton]
            have : ¬ 2 ≤ s.flipped.length := fun hh => h2 (Or.inr hh)
            omega
  · simpa [hp]

theorem judge_flipped_nil_or_eq (s : GameState) :
    (judge s).flipped = [] ∨ (judge s).flipped = s.flipped := by
  unfold judge
  split
  · split
    · split
      · exact Or.inl (judgeMatch_proj _ _).2.1
      · exact Or.inl (judgeMismatch_proj _ _).1
    all_goals exact Or.inr rfl
  · exact Or.inr rfl

theorem step_flipped_le (s : GameState) (a : Action)
    (h : s.flipped.length ≤ 2) : (step s a).flipped.length ≤ 2 := by
  cases a with
  | tick now =>
      show (tick s now).flipped.length ≤ 2
      unfold tick
      split_ifs <;> simpa
  | press i =>
      show (press s i).flipped.length ≤ 2
      simp only [press]
      have hflip := flip_len_le s i h
      split_ifs
      · rcases judge_flipped_nil_or_eq (flip s i) with h' | h' <;> rw [h']
        · simp
        · exact hflip
      · exact hflip

theorem run_preserves (P : GameState → Prop)
    (hstep : ∀ s a, P s → P (step s a)) :
    ∀ (acts : List Action) (s : GameState), P s → P (run s acts) := by
  intro acts
  induction acts with
  | nil => exact fun s h => h
  | cons a t ih => exact fun s h => ih (step s a) (hstep s a h)

/-- C4: the click handler itself rejects a flip (leaving the state
unchanged) both when two cards are already face-up and when the targeted
position is already face-up, and under every sequence of interactions
starting from a fresh round the number of face-up positions never
exceeds 2. -/
theorem flip_bounded :
    (∀ (s : GameState) (i : Nat), 2 ≤ s.flipped.length → flip s i = s) ∧
    (∀ (s : GameState) (i : Nat), i ∈ s.flipped → flip s i = s) ∧
    (∀ (deck : List Card) (tl : ℚ) (mode : Mode) (now : ℚ) (store : Store)
        (acts : List Action),
      (run (init_game deck tl mode now store) acts).flipped.length ≤ 2) := by
  refine ⟨flip_of_two, flip_of_mem, fun deck tl mode now store acts => ?_⟩
  exact run_preserves (fun s => s.flipped.length ≤ 2) step_flipped_le acts _
    (by simp [init_game])

theorem flip_bounded_witness :
    flip { demoNormal with flipped := [0, 1] } 2 =
      { demoNormal with flipped := [0, 1] } ∧
    flip { demoNormal with flipped := [0] } 0 =
      { demoNormal with flipped := [0] } ∧
    (run demoNormal
      [Action.press 0, Action.press 1, Action.press 2]).flipped.length ≤ 2 :=
  ⟨flip_bounded.1 { demoNormal with flipped := [0, 1] } 2 (by decide),
   flip_bounded.2.1 { demoNormal with flipped := [0] } 0 (by decide),
   flip_bounded.2.2 (buildCards demoPairs) 30 Mode.NORMAL 0 []
     [Action.press 0, Action.press 1, Action.press 2]⟩

/-! ## REVENGE-mode increment-at-most-once invariant -/

theorem flip_proj (s : GameState) (i : Nat) :
    (flip s i).store = s.store ∧
    (flip s i).collected_now = s.collected_now ∧
    (flip s i).current_mode = s.current_mode := by
  unfold flip
  by_cases hp : s.game_state = Phase.PLAYING
  · simp only [if_pos hp]
    cases hc : s.cards[i]? with
    | none => exact ⟨rfl, rfl, rfl⟩
    | some card =>
        dsimp only
        split_ifs <;> exact ⟨rfl, rfl, rfl⟩
  · rw [if_neg hp]
    exact ⟨rfl, rfl, rfl⟩

theorem tick_proj (s : GameState) (now : ℚ) :
    (tick s now).store = s.store ∧
    (tick s now).collected_now = s.collected_now ∧
    (tick s now).current_mode = s.current_mode := by
  unfold tick
  split_ifs <;> exact ⟨rfl, rfl, rfl⟩

theorem judgeMatch_mode (s : GameState) (c1 : Card) :
    (judgeMatch s c1).current_mode = s.current_mode := by
  simp only [judgeMatch]
  split_ifs <;> simp_all

theorem judgeMismatch_mode (s : GameState) (c1 : Card) :
    (judgeMismatch s c1).current_mode = s.current_mode := by
  simp only [judgeMismatch]
  split_ifs <;> simp_all

/-- The invariant tying a REVENGE round's persisted store to its collected
list: the round never changes the mode, and every word persisted before the
round keeps its original counter plus one exactly when it has been collected
in this round. -/
def RevengeInv (store0 : Store) (s : GameState) : Prop :=
  s.current_mode = Mode.REVENGE ∧
  ∀ en r, findRow store0 en = some r →
    findRow s.store en =
      some { r with correct_count :=
        r.correct_count + (if en ∈ s.collected_now then 1 else 0) }

theorem revengeInv_judgeMatch (store0 : Store) (s : GameState) (c1 : Card)
    (h : RevengeInv store0 s) : RevengeInv store0 (judgeMatch s c1) := by
  obtain ⟨hmode, hrec⟩ := h
  refine ⟨(judgeMatch_mode s c1).trans hmode, ?_⟩
  by_cases hcol : c1.id ∈ s.collected_now
  · obtain ⟨hs, hc, _⟩ := judgeMatch_collected_before s c1 hcol
    intro en r hr
    rw [hs, hc]
    exact hrec en r hr
  · obtain ⟨hs, _, hc⟩ := judgeMatch_revenge s c1 hmode hcol
    intro en r hr
    rw [hs, hc]
    by_cases hen : en = c1.id
    · have h1 := hrec en r hr
      subst hen
      rw [if_neg hcol] at h1
      rw [increment_fst s.store c1.id _ h1,
        findRow_map_update_self s.store c1.id _ _ h1]
      have hin : c1.id ∈ s.collected_now ++ [c1.id] := by simp
      rw [if_pos hin]
      simp
    · have h1 := hrec en r hr
      have hin : (en ∈ s.collected_now ++ [c1.id]) ↔ en ∈ s.collected_now := by
        simp [hen]
      cases hinc : findRow s.store c1.id with
      | none =>
          rw [increment_of_none s.store c1.id hinc]
          rw [h1]
          by_cases hmem : en ∈ s.collected_now
          · rw [if_pos hmem, if_pos (hin.mpr hmem)]
          · rw [if_neg hmem, if_neg (fun hh => hmem (hin.mp hh))]
      | some rc =>
          rw [increment_of_some s.store c1.id rc hinc]
          rw [findRow_map_update_ne s.store c1.id en _ hen, h1]
          by_cases hmem : en ∈ s.collected_now
          · rw [if_pos hmem, if_pos (hin.mpr hmem)]
          · rw [if_neg hmem, if_neg (fun hh => hmem (hin.mp hh))]

theorem revengeInv_judgeMismatch (store0 : Store) (s : GameState) (c1 : Card)
    (h : RevengeInv store0 s) : RevengeInv store0 (judgeMismatch s c1) := by
  obtain ⟨hmode, hrec⟩ := h
  obtain ⟨_, _, hc, _, hrev⟩ := judgeMismatch_proj s c1
  obtain ⟨hs, _⟩ := hrev (by simp [hmode])
  refine ⟨(judgeMismatch_mode s c1).trans hmode, fun en r hr => ?_⟩
  rw [hs, hc]
  exact hrec en r hr

theorem revengeInv_judge (store0 : Store) (s : GameState)
    (h : RevengeInv store0 s) : RevengeInv store0 (judge s) := by
  unfold judge
  split
  · split
    · split
      · exact revengeInv_judgeMatch store0 s _ h
      · exact revengeInv_judgeMismatch store0 s _ h
    all_goals exact h
  · exact h

theorem revengeInv_step (store0 : Store) (s : GameState) (a : Action)
    (h : RevengeInv store0 s) : RevengeInv store0 (step s a) := by
  cases a with
  | tick now =>
      show RevengeInv store0 (tick s now)
      obtain ⟨hs, hc, hm⟩ := tick_proj s now
      exact ⟨hm.trans h.1, fun en r hr => by rw [hs, hc]; exact h.2 en r hr⟩
  | press i =>
      show RevengeInv store0 (press s i)
      have h' : RevengeInv store0 (flip s i) := by
        obtain ⟨hs, hc, hm⟩ := flip_proj s i
        exact ⟨hm.trans h.1, fun en r hr => by rw [hs, hc]; exact h.2 en r hr⟩
      simp only [press]
      split_ifs
      · exact revengeInv_judge store0 (flip s i) h'
      · exact h'

/-- C10: in a REVENGE round, the persisted success counter of a word is
incremented at most once per round — after any interaction sequence the
counter of a word persisted before the round equals its prior value plus one
exactly when the word's pairId has entered the round's collected list (the
`collected_now` dedup guard), and never more; moreover a card whose pairId is
already matched is disabled, so flipping it is a no-op. -/
theorem revenge_increment_once (deck : List Card) (tl now : ℚ)
    (store0 : Store) (acts : List Action) (en : String) (r : MistakenWord)
    (hr : findRow store0 en = some r) :
    findRow (run (init_game deck tl Mode.REVENGE now store0) acts).store en =
      some { r with correct_count := r.correct_count +
        (if en ∈ (run (init_game deck tl Mode.REVENGE now store0)
            acts).collected_now then 1 else 0) } ∧
    (∀ (s : GameState) (i : Nat) (c : Card),
      s.cards[i]? = some c → c.id ∈ s.matched → flip s i = s) := by
  constructor
  · have hinit : RevengeInv store0 (init_game deck tl Mode.REVENGE now store0) := by
      refine ⟨rfl, fun en' r' hr' => ?_⟩
      simpa [init_game] using hr'
    exact (run_preserves (RevengeInv store0) (revengeInv_step store0) acts _
      hinit).2 en r hr
  · intro s i c hc hm
    unfold flip
    by_cases hp : s.game_state = Phase.PLAYING
    · simp only [if_pos hp, hc]
      rw [if_pos hm]
    · rw [if_neg hp]

theorem revenge_increment_once_witness :
    findRow (run demoRevenge [Action.press 0, Action.press 1]).store "cat" =
      some ⟨"cat", "猫", 10⟩ :=
  ((revenge_increment_once (buildCards demoPairs) 40 0
      [⟨"cat", "猫", 9⟩, ⟨"dog", "犬", 3⟩]
      [Action.press 0, Action.press 1] "cat" ⟨"cat", "猫", 9⟩ rfl).1).trans
    (by decide)

end PokeGame
